import Mathlib

/-!
Verification of the pagination iteration engine and the stream-combinator
helpers of the go-xsoar client library.

The Go code under scrutiny:
* `IncidentPage.HasMore` / `IncidentPage.NextOffset` (incidents model file);
* `incidentService.Search`, `incidentService.yieldPageItems`,
  `incidentService.SearchPage` (service file);
* the generic iterator helpers `Collect`, `CollectN`, `Take`, `Filter`, `Map`
  (iterator file).

Modelling conventions:
* Go `int` is modelled as `Int` (no arithmetic here can overflow 64 bits on
  the inputs considered, and the code uses no wrap-around behaviour).
* A Go `iter.Seq2[T, error]` push iterator is modelled as a state-polymorphic
  function taking a consumer acceptor `σ → τ → Option ε → σ × Bool` (the
  acceptor's `Bool` is Go's `yield` return: `true` = keep going).  The nilable
  `*Incident` slot yielded by `Search` is modelled as `Option α`.
* The `Search` page loop in Go is an unbounded `for` loop; it is modelled with
  explicit fuel, returning `none` when the fuel runs out (so non-termination
  of the Go loop corresponds to `none` for every fuel value).
* To reason about the temporal claims (which fetches happen, in which order,
  relative to which pushes) the loop also records a ghost trace of events;
  the trace accumulation is purely observational and does not influence any
  branch taken by the loop.
-/

namespace GoXsoar

/-- Go constant `defaultPageSize = 100`. -/
def defaultPageSize : Int := 100

/-- Go constant `maxPageSize = 1000`. -/
def maxPageSize : Int := 1000

/-- Go struct `IncidentPage` (fields `Data`, `Total`, `Offset`, `PageSize`),
with the incident type abstracted to `α`. -/
structure IncidentPage (α : Type) where
  data : List α
  total : Int
  offset : Int
  pageSize : Int
  deriving Repr, DecidableEq

/-- Go method `IncidentPage.HasMore`: `p.Offset+len(p.Data) < p.Total`. -/
def IncidentPage.HasMore {α : Type} (p : IncidentPage α) : Bool :=
  decide (p.offset + (p.data.length : Int) < p.total)

/-- Go method `IncidentPage.NextOffset`: `p.Offset + len(p.Data)`. -/
def IncidentPage.NextOffset {α : Type} (p : IncidentPage α) : Int :=
  p.offset + (p.data.length : Int)

/-- Go struct `PageOptions` (fields `Offset`, `Limit`). -/
structure PageOptions where
  offset : Int
  limit : Int
  deriving Repr, DecidableEq

/-- The page-request normalization performed at the top of
`incidentService.SearchPage`: a `nil` `*PageOptions` becomes the zero struct,
then `Limit <= 0` is replaced by `defaultPageSize`, then `Limit > maxPageSize`
is clamped to `maxPageSize`.  (The rest of `SearchPage` is the excluded HTTP
transport.) -/
def normalizePageOptions (page : Option PageOptions) : PageOptions :=
  let p := page.getD { offset := 0, limit := 0 }
  let p1 := if p.limit ≤ 0 then { p with limit := defaultPageSize } else p
  if maxPageSize < p1.limit then { p1 with limit := maxPageSize } else p1

/-- Ghost trace events of a `Search` run: a call to the page-fetch primitive,
or a pair pushed to the consumer (recording the acceptor's answer `cont`). -/
inductive SEvent (α ε : Type) where
  | fetchCall (offset : Int)
  | pushPair (item : Option α) (err : Option ε) (cont : Bool)
  deriving Repr, DecidableEq

/-- Go method `incidentService.yieldPageItems`: for each incident of the page,
first check `ctx.Err()`; if set, push `(nil, err)` and return `false`;
otherwise push the incident and return `false` if the acceptor does.
The cancellation signal is modelled as a function of the consumer state
(the only thing that evolves between two checks).  The event-trace argument
is ghost instrumentation. -/
def yieldPageItems {α ε σ : Type} (ctxErr : σ → Option ε)
    (yield : σ → Option α → Option ε → σ × Bool) :
    List α → σ → List (SEvent α ε) → (σ × List (SEvent α ε)) × Bool
  | [], s, tr => ((s, tr), true)
  | a :: rest, s, tr =>
    match ctxErr s with
    | some e =>
      let q := yield s none (some e)
      ((q.1, tr ++ [SEvent.pushPair none (some e) q.2]), false)
    | none =>
      let q := yield s (some a) none
      let tr2 := tr ++ [SEvent.pushPair (some a) none q.2]
      if q.2 then yieldPageItems ctxErr yield rest q.1 tr2 else ((q.1, tr2), false)

/-- The `for` loop in the closure returned by `incidentService.Search`,
with the page-fetch primitive (`SearchPage` with the filter and options
pre-applied) abstracted as `fetch : offset → limit → page-or-error`, and
explicit fuel.  The loop always requests `defaultPageSize` items (Go:
`pageSize := defaultPageSize`, never reassigned).  On a fetch error it pushes
`(nil, err)` and returns; otherwise it delivers the page via `yieldPageItems`,
stops when that returns `false` or when `page.HasMore()` is false, and
otherwise continues from `page.NextOffset()`.  Returns `none` when the fuel
is exhausted, together with the ghost event trace accumulated so far. -/
def searchLoop {α ε σ : Type} (fetch : Int → Int → Except ε (IncidentPage α))
    (ctxErr : σ → Option ε) (yield : σ → Option α → Option ε → σ × Bool) :
    Nat → Int → σ → List (SEvent α ε) → Option σ × List (SEvent α ε)
  | 0, _, _, tr => (none, tr)
  | fuel+1, offset, s, tr =>
    let tr1 := tr ++ [SEvent.fetchCall offset]
    match fetch offset defaultPageSize with
    | .error e =>
      let q := yield s none (some e)
      (some q.1, tr1 ++ [SEvent.pushPair none (some e) q.2])
    | .ok page =>
      let r := yieldPageItems ctxErr yield page.data s tr1
      if !r.2 then (some r.1.1, r.1.2)
      else if !page.HasMore then (some r.1.1, r.1.2)
      else searchLoop fetch ctxErr yield fuel page.NextOffset r.1.1 r.1.2

/-- Go method `incidentService.Search`, run against a given consumer acceptor:
the loop of `searchLoop` started at `offset := 0` with an empty trace. -/
def Search {α ε σ : Type} (fetch : Int → Int → Except ε (IncidentPage α))
    (ctxErr : σ → Option ε) (yield : σ → Option α → Option ε → σ × Bool)
    (fuel : Nat) (s : σ) : Option σ × List (SEvent α ε) :=
  searchLoop fetch ctxErr yield fuel 0 s []

/-- Counts the `fetchCall` events of a trace: how many times the run invoked
the page-fetch primitive. -/
def countFetches {α ε : Type} (tr : List (SEvent α ε)) : Nat :=
  tr.countP fun e => match e with
    | SEvent.fetchCall _ => true
    | _ => false

/-- An event that is an item push (error slot empty) answered `false` by the
acceptor: the consumer's request to stop. -/
def isStopPush {α ε : Type} : SEvent α ε → Bool
  | SEvent.pushPair _ none false => true
  | _ => false

/-- Holds when every stop-push of the trace is its very last event: once the
acceptor answers `false` for an item, nothing else happens (no push, no
fetch). -/
def noEventsAfterFalse {α ε : Type} : List (SEvent α ε) → Bool
  | [] => true
  | e :: rest => if isStopPush e then rest.isEmpty else noEventsAfterFalse rest

/-- A trace segment containing no stop-push at all. -/
def cleanSeg {α ε : Type} (tr : List (SEvent α ε)) : Bool :=
  tr.all fun e => !isStopPush e

/-- Go `iter.Seq2[T, error]` (a push iterator): a producer that drives a
consumer-supplied acceptor, the acceptor threading its own private state `σ`
and answering `false` to stop the producer.  State-polymorphism captures the
arbitrary closure state of a Go `yield` function. -/
def FSeq (τ ε : Type) : Type 1 :=
  (σ : Type) → (σ → τ → Option ε → σ × Bool) → σ → σ

/-- The acceptor body of Go `Collect`'s `for` loop: on an error pair, record
the error and break out of the loop; otherwise append the item and continue. -/
def collectStep {τ ε : Type} :
    List τ × Option ε → τ → Option ε → (List τ × Option ε) × Bool :=
  fun s item err =>
    match err with
    | some e => ((s.1, some e), false)
    | none => ((s.1 ++ [item], none), true)

/-- Go function `Collect`: drain the sequence, stopping at the first error,
returning the items collected so far together with the error (if any). -/
def Collect {τ ε : Type} (seq : FSeq τ ε) : List τ × Option ε :=
  seq (List τ × Option ε) collectStep ([], none)

/-- The acceptor body of Go `CollectN`'s `for` loop: stop on the first error;
otherwise append and break once `len(result) >= n`. -/
def collectNStep {τ ε : Type} (n : Int) :
    List τ × Option ε → τ → Option ε → (List τ × Option ε) × Bool :=
  fun s item err =>
    match err with
    | some e => ((s.1, some e), false)
    | none =>
      let r := s.1 ++ [item]
      if n ≤ (r.length : Int) then ((r, none), false) else ((r, none), true)

/-- Go function `CollectN`: gather up to `n` items, stopping on the first
error. -/
def CollectN {τ ε : Type} (seq : FSeq τ ε) (n : Int) : List τ × Option ε :=
  seq (List τ × Option ε) (collectNStep n) ([], none)

/-- The acceptor `Take` installs on its source, threading the downstream state
together with Go's `count` variable: forward the pair verbatim; stop if the
downstream acceptor answered `false` or the pair carried an error; otherwise
increment `count` and stop once `count >= n`. -/
def takeStep {τ ε σ : Type} (yield : σ → τ → Option ε → σ × Bool) (n : Int) :
    σ × Int → τ → Option ε → (σ × Int) × Bool :=
  fun p item err =>
    let q := yield p.1 item err
    if !q.2 || err.isSome then ((q.1, p.2), false)
    else ((q.1, p.2 + 1), decide (p.2 + 1 < n))

/-- Go function `Take`: yield at most `n` items from the source (forwarding
any error pair verbatim and stopping right after it). -/
def Take {τ ε : Type} (seq : FSeq τ ε) (n : Int) : FSeq τ ε :=
  fun σ yield s => (seq (σ × Int) (takeStep yield n) (s, 0)).1

/-- Go function `Filter`: forward an error pair (discarding the acceptor's
answer) and stop; otherwise push only items satisfying the predicate. -/
def Filter {τ ε : Type} (seq : FSeq τ ε) (pred : τ → Bool) : FSeq τ ε :=
  fun σ yield s =>
    seq σ
      (fun s1 item err =>
        match err with
        | some e => ((yield s1 item (some e)).1, false)
        | none => if pred item then yield s1 item none else (s1, true))
      s

/-- Go function `Map`: transform each item; on an upstream error push the
zero value of the target type (Go `var zero U`) with the error, then stop. -/
def Map {τ υ ε : Type} [Inhabited υ] (seq : FSeq τ ε) (fn : τ → υ) : FSeq υ ε :=
  fun σ yield s =>
    seq σ
      (fun s1 item err =>
        match err with
        | some e => ((yield s1 default (some e)).1, false)
        | none => yield s1 (fn item) none)
      s

/-- Runs a list-backed producer: push the pairs of the list in order until the
acceptor answers `false` (or the list is exhausted). -/
def runPairs {τ ε σ : Type} (yield : σ → τ → Option ε → σ × Bool) :
    List (τ × Option ε) → σ → σ
  | [], s => s
  | (a, e) :: rest, s =>
    let q := yield s a e
    if q.2 then runPairs yield rest q.1 else q.1

/-- The number of pairs the list-backed producer pushes before stopping, in
the same run as `runPairs`: how many pairs the consumer pulls from the
source. -/
def runPairsCount {τ ε σ : Type} (yield : σ → τ → Option ε → σ × Bool) :
    List (τ × Option ε) → σ → Nat
  | [], _ => 0
  | (a, e) :: rest, s =>
    let q := yield s a e
    1 + (if q.2 then runPairsCount yield rest q.1 else 0)

/-- A well-behaved source sequence determined by the list of pairs it pushes:
the shape every mock sequence of the repository's tests takes.  It models an
arbitrary upstream producer (it does not stop by itself after an error pair,
so theorems about the combinators' own stopping behaviour are not weakened). -/
def ofPairs {τ ε : Type} (l : List (τ × Option ε)) : FSeq τ ε :=
  fun _ yield s => runPairs yield l s

/-- The pairs `Take _ n` actually consumes (and forwards) from a list-backed
source whose counter currently stands at `c`: pairs are copied in order; an
error pair ends the cut, as does the counter reaching `n`. -/
def takeCut {τ ε : Type} (n : Int) (c : Int) :
    List (τ × Option ε) → List (τ × Option ε)
  | [] => []
  | (a, err) :: rest =>
    (a, err) ::
      (if err.isSome then [] else if c + 1 < n then takeCut n (c + 1) rest else [])

/-- Every pair of the list except possibly the last carries no error. -/
def errOnlyLast {τ ε : Type} : List (τ × Option ε) → Bool
  | [] => true
  | _ :: [] => true
  | x :: y :: rest => x.2.isNone && errOnlyLast (y :: rest)

/-- The iterator returned by `Search`, packaged as a fallible sequence, for a
run with no cancellation: the consumer's acceptor is simply handed to the page
loop.  When the fuel is insufficient (the Go loop would still be running) the
initial state is returned unchanged. -/
def searchSeq {α ε : Type} (fetch : Int → Int → Except ε (IncidentPage α))
    (fuel : Nat) : FSeq (Option α) ε :=
  fun _ yield s => ((Search fetch (fun _ => none) yield fuel s).1).getD s

/-- A fetch primitive serving a fixed result set of `N` items (numbered
`0..N-1`) in pages of at most `K` items: the fetch at offset `o` returns the
items `o .. min (o+K) N - 1` with total `N`. -/
def fetchNK (N K : Nat) : Int → Int → Except Unit (IncidentPage Nat) :=
  fun o lim =>
    .ok { data := List.range' o.toNat (min K (N - o.toNat)), total := (N : Int),
          offset := o, pageSize := lim }

/-- Concrete fetch primitive of the fetch-error scenario: the first fetch
(offset 0) serves a 2-item page of a 5-item result set, every later fetch
fails. -/
def fetch25 : Int → Int → Except String (IncidentPage Nat) :=
  fun o _ =>
    if o = 0 then .ok { data := [10, 11], total := 5, offset := 0, pageSize := 2 }
    else .error "boom"

/-- Concrete fetch primitive of the cancellation scenario: a single 3-item
page. -/
def fetch1 : Int → Int → Except String (IncidentPage Nat) :=
  fun o _ => .ok { data := [7, 8, 9], total := 3, offset := o, pageSize := 100 }

/-- The cancellation signal of the cancellation scenario: set as soon as the
consumer has received one item. -/
def ctxAfterOne (s : List (Option Nat) × Option String) : Option String :=
  if 1 ≤ s.1.length then some "canceled" else none

/-- Concrete fetch primitive of the short-final-page scenario: 3 items served
as a 2-item page then a 1-item page (shorter than the requested limit). -/
def fetchShort : Int → Int → Except String (IncidentPage Nat) :=
  fun o _ =>
    if o = 0 then .ok { data := [10, 11], total := 3, offset := 0, pageSize := 100 }
    else .ok { data := [12], total := 3, offset := 2, pageSize := 100 }

/-- Concrete fetch primitive of the empty-page scenario: always an empty page
claiming one more item exists. -/
def fetchEmptyW : Int → Int → Except Unit (IncidentPage Nat) :=
  fun o _ => .ok { data := [], total := 1, offset := o, pageSize := 100 }

/-- The error-free source `[1..10]` of the combinator-composition scenario. -/
def src10 : List (Int × Option Unit) :=
  [(1, none), (2, none), (3, none), (4, none), (5, none),
   (6, none), (7, none), (8, none), (9, none), (10, none)]

/-- The 5-item error-free source of the `CollectN` boundary scenario. -/
def fiveItems : List (Nat × Option Unit) :=
  [(1, none), (2, none), (3, none), (4, none), (5, none)]

/-- A 3-item error-free source used by the `Take` scenario. -/
def threeItems : List (Nat × Option Unit) :=
  [(7, none), (8, none), (9, none)]

/-- C7: `SearchPage` normalizes the requested page size: `limit ≤ 0` becomes
the default `100`, `limit > 1000` is clamped to `1000`, anything else is kept;
a nil `PageOptions` is treated as offset `0` with the default limit; in
particular `0` and `-5` normalize to `100` and `5000` normalizes to `1000`. -/
theorem searchPage_limit_normalization :
    (∀ off L : Int,
        normalizePageOptions (some { offset := off, limit := L }) =
          { offset := off,
            limit := if L ≤ 0 then 100 else if L > 1000 then 1000 else L })
    ∧ normalizePageOptions none = { offset := 0, limit := 100 }
    ∧ (normalizePageOptions (some { offset := 0, limit := 0 })).limit = 100
    ∧ (normalizePageOptions (some { offset := 0, limit := -5 })).limit = 100
    ∧ (normalizePageOptions (some { offset := 0, limit := 5000 })).limit = 1000 := by
  refine ⟨?_, by decide, by decide, by decide, by decide⟩
  intro off L
  simp only [normalizePageOptions, Option.getD, defaultPageSize, maxPageSize]
  split_ifs <;> simp_all

/-- C6: if some reached offset makes the fetch return an empty page whose own
offset echoes the request while `offset < total`, then `HasMore` is true and
`NextOffset` equals the same offset, so the `Search` loop refetches that
offset forever: for every fuel the run is still unfinished — this holds for
every consumer and every cancellation signal, since an empty page pushes
nothing.  Hence a full drain of `Search` can only terminate when every fetched
page is non-empty or final. -/
theorem search_empty_page_loops {α ε σ : Type}
    (fetch : Int → Int → Except ε (IncidentPage α)) (ctxErr : σ → Option ε)
    (yield : σ → Option α → Option ε → σ × Bool) (p : IncidentPage α) (o : Int)
    (fuel : Nat) (s : σ) (tr : List (SEvent α ε))
    (hf : fetch o defaultPageSize = .ok p) (hd : p.data = [])
    (ho : p.offset = o) (ht : o < p.total) :
    p.HasMore = true ∧ p.NextOffset = o ∧
      (searchLoop fetch ctxErr yield fuel o s tr).1 = none := by
  have hm : p.HasMore = true := by
    simp [IncidentPage.HasMore, hd, ho]
    omega
  have hn : p.NextOffset = o := by
    simp [IncidentPage.NextOffset, hd, ho]
  refine ⟨hm, hn, ?_⟩
  induction fuel generalizing s tr with
  | zero => simp [searchLoop]
  | succ m ih =>
    simp only [searchLoop]
    rw [hf]
    simp only [hd, yieldPageItems, hm, hn, Bool.not_true, Bool.false_eq_true,
      if_false]
    exact ih _ _

/-- Closed witness for the empty-page divergence: a concrete fetch primitive
serving empty pages with total 1 keeps the loop unfinished at fuel 40. -/
theorem search_empty_page_loops_w :
    ((⟨[], 1, 0, 100⟩ : IncidentPage Nat).HasMore = true)
    ∧ (searchLoop fetchEmptyW (fun _ => none) collectStep 40 0
        (([] : List (Option Nat)), (none : Option Unit)) []).1 = none := by
  have h := search_empty_page_loops fetchEmptyW (fun _ => none) collectStep
    ⟨[], 1, 0, 100⟩ 0 40 (([] : List (Option Nat)), (none : Option Unit)) []
    rfl rfl rfl (by decide)
  exact ⟨h.1, h.2.2⟩

/-- C2: whenever the page fetch issued by the `Search` loop returns an error,
the run pushes exactly one terminal pair (nil item, that error) and returns
immediately: the trace gains only the fetch call and that single push, so no
further pair is pushed and no further fetch is issued.  Since the loop state
`(o, s, tr)` is arbitrary, this covers the k-th fetch of any run for every k,
and the items already delivered (recorded in `s` and `tr`) are untouched. -/
theorem search_fetch_error_terminal {α ε σ : Type}
    (fetch : Int → Int → Except ε (IncidentPage α)) (ctxErr : σ → Option ε)
    (yield : σ → Option α → Option ε → σ × Bool) (e : ε) (o : Int)
    (fuel : Nat) (s : σ) (tr : List (SEvent α ε))
    (hf : fetch o defaultPageSize = .error e) :
    searchLoop fetch ctxErr yield (fuel + 1) o s tr =
      (some (yield s none (some e)).1,
        tr ++ [SEvent.fetchCall o,
          SEvent.pushPair none (some e) (yield s none (some e)).2]) := by
  simp only [searchLoop]
  rw [hf]
  simp

/-- Closed witness for the fetch-error claim: with a primitive whose 2nd fetch
(of 3 expected) fails, the failing iteration pushes exactly the terminal error
pair, and the whole run returns the 1st page's items together with that error
after exactly 2 fetches. -/
theorem search_fetch_error_terminal_w :
    (searchLoop fetch25 (fun _ => none) collectStep 4 2
        ([some 10, some 11], none)
        [SEvent.fetchCall 0, SEvent.pushPair (some 10) none true,
          SEvent.pushPair (some 11) none true] =
      (some ([some 10, some 11], some "boom"),
        [SEvent.fetchCall 0, SEvent.pushPair (some 10) none true,
          SEvent.pushPair (some 11) none true, SEvent.fetchCall 2,
          SEvent.pushPair none (some "boom") false]))
    ∧ Search fetch25 (fun _ => none) collectStep 5
        (([] : List (Option Nat)), (none : Option String)) =
      (some ([some 10, some 11], some "boom"),
        [SEvent.fetchCall 0, SEvent.pushPair (some 10) none true,
          SEvent.pushPair (some 11) none true, SEvent.fetchCall 2,
          SEvent.pushPair none (some "boom") false])
    ∧ countFetches (Search fetch25 (fun _ => none) collectStep 5
        (([] : List (Option Nat)), (none : Option String))).2 = 2 := by
  refine ⟨?_, by rfl, by rfl⟩
  exact search_fetch_error_terminal fetch25 (fun _ => none) collectStep "boom" 2 3
    ([some 10, some 11], none) _ rfl

/-- C3: the cancellation signal is checked before every single item of an
already-fetched page: if it is set before item `i` is pushed (`a :: rem` being
the not-yet-delivered items `i..end` of the page), exactly one terminal pair
(nil item, cancellation error) is pushed, the remaining items are never
delivered (`rem` contributes nothing to the trace) and the page delivery
reports `false`; and whenever the page delivery reports `false`, the `Search`
loop returns at once, issuing no further fetch. -/
theorem search_cancel_mid_page {α ε σ : Type}
    (ctxErr : σ → Option ε) (yield : σ → Option α → Option ε → σ × Bool) :
    (∀ (e : ε) (a : α) (rem : List α) (s : σ) (tr : List (SEvent α ε)),
        ctxErr s = some e →
        yieldPageItems ctxErr yield (a :: rem) s tr =
          (((yield s none (some e)).1,
            tr ++ [SEvent.pushPair none (some e) (yield s none (some e)).2]),
            false))
    ∧ ∀ (fetch : Int → Int → Except ε (IncidentPage α)) (page : IncidentPage α)
        (o : Int) (fuel : Nat) (s : σ) (tr : List (SEvent α ε))
        (p2 : σ × List (SEvent α ε)),
        fetch o defaultPageSize = .ok page →
        yieldPageItems ctxErr yield page.data s (tr ++ [SEvent.fetchCall o]) =
          (p2, false) →
        searchLoop fetch ctxErr yield (fuel + 1) o s tr = (some p2.1, p2.2) := by
  constructor
  · intro e a rem s tr h
    simp only [yieldPageItems]
    rw [h]
  · intro fetch page o fuel s tr p2 hf hy
    simp only [searchLoop]
    rw [hf]
    simp [hy]

/-- Closed witness for the mid-page cancellation claim: a single 3-item page
with a signal that trips after the 1st item yields that item, then one
terminal cancellation pair, with one fetch in total and items 2 and 3 never
delivered. -/
theorem search_cancel_mid_page_w :
    (yieldPageItems ctxAfterOne collectStep [8, 9] ([some 7], none)
        [SEvent.fetchCall 0, SEvent.pushPair (some 7) none true] =
      ((([some 7], some "canceled"),
        [SEvent.fetchCall 0, SEvent.pushPair (some 7) none true,
          SEvent.pushPair none (some "canceled") false]), false))
    ∧ Search fetch1 ctxAfterOne collectStep 3
        (([] : List (Option Nat)), (none : Option String)) =
      (some ([some 7], some "canceled"),
        [SEvent.fetchCall 0, SEvent.pushPair (some 7) none true,
          SEvent.pushPair none (some "canceled") false])
    ∧ countFetches (Search fetch1 ctxAfterOne collectStep 3
        (([] : List (Option Nat)), (none : Option String))).2 = 1 := by
  refine ⟨?_, by rfl, by rfl⟩
  exact (search_cancel_mid_page ctxAfterOne collectStep).1 "canceled" 8 [9]
    ([some 7], none) _ rfl

/-- C5: the engine continues exactly when `offset + len(items) < total`
(`HasMore`), and when it continues the next fetch starts from
`offset + len(items)` (`NextOffset`) — not `offset + limit`; when `HasMore` is
false the loop ends cleanly right after the fully delivered page. -/
theorem hasMore_nextOffset_continuation {α ε σ : Type} :
    (∀ p : IncidentPage α,
        p.HasMore = true ↔ p.offset + (p.data.length : Int) < p.total)
    ∧ (∀ p : IncidentPage α, p.NextOffset = p.offset + (p.data.length : Int))
    ∧ ∀ (fetch : Int → Int → Except ε (IncidentPage α)) (ctxErr : σ → Option ε)
        (yield : σ → Option α → Option ε → σ × Bool) (page : IncidentPage α)
        (o : Int) (fuel : Nat) (s : σ) (tr : List (SEvent α ε))
        (p2 : σ × List (SEvent α ε)),
        fetch o defaultPageSize = .ok page →
        yieldPageItems ctxErr yield page.data s (tr ++ [SEvent.fetchCall o]) =
          (p2, true) →
        (page.HasMore = true →
          searchLoop fetch ctxErr yield (fuel + 1) o s tr =
            searchLoop fetch ctxErr yield fuel page.NextOffset p2.1 p2.2)
        ∧ (page.HasMore = false →
          searchLoop fetch ctxErr yield (fuel + 1) o s tr = (some p2.1, p2.2)) := by
  refine ⟨fun p => by simp [IncidentPage.HasMore], fun p => rfl, ?_⟩
  intro fetch ctxErr yield page o fuel s tr p2 hf hy
  constructor
  · intro hm
    simp only [searchLoop]
    rw [hf]
    simp [hy, hm]
  · intro hm
    simp only [searchLoop]
    rw [hf]
    simp [hy, hm]

/-- Closed witness for the continuation claim: a 3-item result served as a
2-item page then a final 1-item page (shorter than the requested limit of
100); the final page has `offset + len = total`, so `HasMore` is false and the
run ends cleanly after exactly 2 fetches with all 3 items delivered. -/
theorem hasMore_nextOffset_continuation_w :
    ((⟨[12], 3, 2, 100⟩ : IncidentPage Nat).HasMore = false)
    ∧ ((⟨[12], 3, 2, 100⟩ : IncidentPage Nat).NextOffset = 3)
    ∧ (searchLoop fetchShort (fun _ => none) collectStep 3 2
        ([some 10, some 11], none)
        [SEvent.fetchCall 0, SEvent.pushPair (some 10) none true,
          SEvent.pushPair (some 11) none true] =
      (some ([some 10, some 11, some 12], none),
        [SEvent.fetchCall 0, SEvent.pushPair (some 10) none true,
          SEvent.pushPair (some 11) none true, SEvent.fetchCall 2,
          SEvent.pushPair (some 12) none true]))
    ∧ Search fetchShort (fun _ => none) collectStep 4
        (([] : List (Option Nat)), (none : Option String)) =
      (some ([some 10, some 11, some 12], none),
        [SEvent.fetchCall 0, SEvent.pushPair (some 10) none true,
          SEvent.pushPair (some 11) none true, SEvent.fetchCall 2,
          SEvent.pushPair (some 12) none true])
    ∧ countFetches (Search fetchShort (fun _ => none) collectStep 4
        (([] : List (Option Nat)), (none : Option String))).2 = 2 := by
  refine ⟨by decide, by decide, ?_, by rfl, by rfl⟩
  exact ((hasMore_nextOffset_continuation.2.2 fetchShort (fun _ => none)
    collectStep ⟨[12], 3, 2, 100⟩ 2 2 ([some 10, some 11], none)
    [SEvent.fetchCall 0, SEvent.pushPair (some 10) none true,
      SEvent.pushPair (some 11) none true]
    ((([some 10, some 11, some 12], none),
      [SEvent.fetchCall 0, SEvent.pushPair (some 10) none true,
        SEvent.pushPair (some 11) none true, SEvent.fetchCall 2,
        SEvent.pushPair (some 12) none true]))
    rfl rfl).2 (by decide))

/-- C10: the combinators nest freely: over the error-free source `[1..10]`,
`Take (Map (Filter seq isEven) double) 3` yields exactly `[4, 8, 12]` with no
error; and the nested pipeline is lazy and respects the stop contract — the
same result is obtained over `[1..6] ++ ext` for an arbitrary continuation
`ext`, because after the 3rd surviving item every wrapper stops and the source
is never pulled again. -/
theorem combinator_composition :
    Collect (Take (Map (Filter (ofPairs src10) (fun x => x % 2 == 0))
        (fun x => 2 * x)) 3) = ([4, 8, 12], none)
    ∧ ∀ ext : List (Int × Option Unit),
        Collect (Take (Map (Filter (ofPairs
            ((1, none) :: (2, none) :: (3, none) :: (4, none) :: (5, none) ::
              (6, none) :: ext)) (fun x => x % 2 == 0)) (fun x => 2 * x)) 3) =
          ([4, 8, 12], none) := by
  exact ⟨by decide, fun ext => by rfl⟩

theorem cleanSeg_noEvents {α ε : Type} (tr : List (SEvent α ε))
    (h : cleanSeg tr = true) : noEventsAfterFalse tr = true := by
  induction tr with
  | nil => rfl
  | cons e rest ih =>
    simp only [cleanSeg, List.all_cons, Bool.and_eq_true, Bool.not_eq_eq_eq_not,
      Bool.not_true] at h
    simp only [noEventsAfterFalse, h.1, Bool.false_eq_true, if_false]
    exact ih h.2

theorem cleanSeg_append_one {α ε : Type} (tr : List (SEvent α ε))
    (x : SEvent α ε) (h : cleanSeg tr = true) :
    noEventsAfterFalse (tr ++ [x]) = true := by
  induction tr with
  | nil =>
    simp only [List.nil_append, noEventsAfterFalse]
    split <;> rfl
  | cons e rest ih =>
    simp only [cleanSeg, List.all_cons, Bool.and_eq_true, Bool.not_eq_eq_eq_not,
      Bool.not_true] at h
    simp only [List.cons_append, noEventsAfterFalse, h.1, Bool.false_eq_true,
      if_false]
    exact ih h.2

theorem cleanSeg_append {α ε : Type} (tr1 tr2 : List (SEvent α ε)) :
    cleanSeg (tr1 ++ tr2) = (cleanSeg tr1 && cleanSeg tr2) := by
  simp [cleanSeg, List.all_append]

theorem cleanSeg_one_fetch {α ε : Type} (o : Int) :
    cleanSeg ([SEvent.fetchCall o] : List (SEvent α ε)) = true := rfl

theorem cleanSeg_one_push {α ε : Type} (it : Option α) :
    cleanSeg [SEvent.pushPair it (none : Option ε) true] = true := rfl

theorem cleanSeg_one_err {α ε : Type} (it : Option α) (e : ε) (b : Bool) :
    cleanSeg [SEvent.pushPair it (some e) b] = true := rfl

theorem yieldPageItems_trace {α ε σ : Type} (ctxErr : σ → Option ε)
    (yield : σ → Option α → Option ε → σ × Bool) (d : List α) :
    ∀ (s : σ) (tr : List (SEvent α ε)), cleanSeg tr = true →
      ((yieldPageItems ctxErr yield d s tr).2 = true →
        cleanSeg (yieldPageItems ctxErr yield d s tr).1.2 = true)
      ∧ ((yieldPageItems ctxErr yield d s tr).2 = false →
        noEventsAfterFalse (yieldPageItems ctxErr yield d s tr).1.2 = true) := by
  induction d with
  | nil =>
    intro s tr h
    exact ⟨fun _ => h, fun hh => by simp [yieldPageItems] at hh⟩
  | cons a rest ih =>
    intro s tr h
    simp only [yieldPageItems]
    cases hc : ctxErr s with
    | some e =>
      refine ⟨fun hh => by simp at hh, fun _ => ?_⟩
      exact cleanSeg_append_one tr (SEvent.pushPair none (some e)
        (yield s none (some e)).2) h
    | none =>
      cases hq : (yield s (some a) none).2 with
      | true =>
        simp only [hq, if_true]
        refine ih (yield s (some a) none).1
          (tr ++ [SEvent.pushPair (some a) none true]) ?_
        rw [cleanSeg_append, h, cleanSeg_one_push]; rfl
      | false =>
        simp only [hq, Bool.false_eq_true, if_false]
        refine ⟨fun hh => by simp at hh, fun _ => ?_⟩
        exact cleanSeg_append_one tr (SEvent.pushPair (some a) none false) h

theorem searchLoop_noEvents {α ε σ : Type}
    (fetch : Int → Int → Except ε (IncidentPage α)) (ctxErr : σ → Option ε)
    (yield : σ → Option α → Option ε → σ × Bool) (fuel : Nat) :
    ∀ (o : Int) (s : σ) (tr : List (SEvent α ε)), cleanSeg tr = true →
      noEventsAfterFalse (searchLoop fetch ctxErr yield fuel o s tr).2 = true := by
  induction fuel with
  | zero =>
    intro o s tr h
    exact cleanSeg_noEvents tr h
  | succ m ih =>
    intro o s tr h
    have htr1 : cleanSeg (tr ++ [SEvent.fetchCall o]) = true := by
      rw [cleanSeg_append, h, cleanSeg_one_fetch]; rfl
    simp only [searchLoop]
    cases hf : fetch o defaultPageSize with
    | error e =>
      have hcl : cleanSeg ((tr ++ [SEvent.fetchCall o]) ++
          [SEvent.pushPair none (some e) (yield s none (some e)).2]) = true := by
        rw [cleanSeg_append, htr1, cleanSeg_one_err]; rfl
      simpa using cleanSeg_noEvents _ hcl
    | ok page =>
      have hy := yieldPageItems_trace ctxErr yield page.data s
        (tr ++ [SEvent.fetchCall o]) htr1
      cases hr : (yieldPageItems ctxErr yield page.data s
          (tr ++ [SEvent.fetchCall o])).2 with
      | true =>
        cases hm : page.HasMore with
        | true =>
          simp only [hr, hm, Bool.not_true, Bool.false_eq_true, if_false]
          exact ih page.NextOffset _ _ (hy.1 hr)
        | false =>
          simp only [hr, hm, Bool.not_true, Bool.not_false, Bool.false_eq_true,
            if_false, if_true]
          exact cleanSeg_noEvents _ (hy.1 hr)
      | false =>
        simp only [hr, Bool.not_false, if_true]
        exact hy.2 hr

/-- C4: for every fetch primitive, every cancellation signal and every
consumer, once the acceptor answers `false` for an item of the `Search`
sequence, nothing further happens: in the run's event trace an item push
answered `false` is always the final event — no later pair is pushed and no
later page fetch is issued. -/
theorem search_acceptor_false_stops {α ε σ : Type}
    (fetch : Int → Int → Except ε (IncidentPage α)) (ctxErr : σ → Option ε)
    (yield : σ → Option α → Option ε → σ × Bool) (fuel : Nat) (s : σ) :
    noEventsAfterFalse (Search fetch ctxErr yield fuel s).2 = true :=
  searchLoop_noEvents fetch ctxErr yield fuel 0 s [] rfl

theorem countFetches_append {α ε : Type} (t1 t2 : List (SEvent α ε)) :
    countFetches (t1 ++ t2) = countFetches t1 + countFetches t2 := by
  simp [countFetches, List.countP_append]

theorem countFetches_pushes {α ε : Type} (d : List α) :
    countFetches (d.map fun a =>
      (SEvent.pushPair (some a) (none : Option ε) true)) = 0 := by
  induction d with
  | nil => rfl
  | cons a rest ih =>
    simp only [List.map_cons, countFetches, List.countP_cons] at ih ⊢
    simp [ih]

theorem countFetches_one {α ε : Type} (o : Int) :
    countFetches ([SEvent.fetchCall o] : List (SEvent α ε)) = 1 := rfl

theorem yieldPageItems_collect {ε : Type} (d : List Nat) :
    ∀ (acc : List (Option Nat)) (tr : List (SEvent Nat ε)),
      yieldPageItems (fun _ => (none : Option ε)) collectStep d (acc, none) tr =
        (((acc ++ d.map some, none),
          tr ++ d.map fun a => SEvent.pushPair (some a) none true), true) := by
  induction d with
  | nil => intro acc tr; simp [yieldPageItems]
  | cons a rest ih =>
    intro acc tr
    simp only [yieldPageItems, collectStep, List.map_cons]
    rw [ih]
    simp

theorem searchNK_main (N K : Nat) (hK : 1 ≤ K) :
    ∀ (fuel o : Nat), (o = 0 ∨ o < N) → N - o < fuel →
      ∀ (acc : List (Option Nat)) (tr : List (SEvent Nat Unit)),
        (searchLoop (fetchNK N K) (fun _ => none) collectStep fuel (o : Int)
            (acc, none) tr).1 =
          some (acc ++ (List.range' o (N - o)).map some, none)
        ∧ countFetches (searchLoop (fetchNK N K) (fun _ => none) collectStep
            fuel (o : Int) (acc, none) tr).2 =
          countFetches tr + ((N - o - 1) / K + 1) := by
  intro fuel
  induction fuel with
  | zero => intro o ho hf; omega
  | succ m ih =>
    intro o ho hf acc tr
    have hfetch : fetchNK N K (o : Int) defaultPageSize =
        .ok ⟨List.range' o (min K (N - o)), (N : Int), (o : Int),
          defaultPageSize⟩ := by
      simp [fetchNK]
    simp only [searchLoop, hfetch]
    rw [yieldPageItems_collect]
    have hlen : (List.range' o (min K (N - o))).length = min K (N - o) := by
      simp
    by_cases hmore : o + min K (N - o) < N
    · have hLK : min K (N - o) = K := by omega
      have hmoreb : (⟨List.range' o (min K (N - o)), (N : Int), (o : Int),
          defaultPageSize⟩ : IncidentPage Nat).HasMore = true := by
        simp only [IncidentPage.HasMore, hlen]
        rw [decide_eq_true_iff]
        push_cast
        omega
      have hnext : (⟨List.range' o (min K (N - o)), (N : Int), (o : Int),
          defaultPageSize⟩ : IncidentPage Nat).NextOffset = ((o + K : Nat) : Int) := by
        simp only [IncidentPage.NextOffset]
        simp only [List.length_range']
        rw [hLK]
        push_cast
        ring
      simp only [hmoreb, hnext, Bool.not_true, Bool.false_eq_true, if_false]
      have hrec := ih (o + K) (Or.inr (by omega)) (by omega)
        (acc ++ (List.range' o (min K (N - o))).map some)
        ((tr ++ [SEvent.fetchCall (o : Int)]) ++
          (List.range' o (min K (N - o))).map fun a =>
            SEvent.pushPair (some a) none true)
      refine ⟨?_, ?_⟩
      · rw [hrec.1]
        have hsplit : List.range' o (N - o) =
            List.range' o K ++ List.range' (o + K) (N - (o + K)) := by
          have hap := List.range'_append o K (N - (o + K)) 1
          simp only [one_mul] at hap
          rw [show N - (o + K) + K = N - o from by omega] at hap
          exact hap.symm
        rw [hLK, hsplit]
        simp only [List.map_append, List.append_assoc]
      · rw [hrec.2]
        rw [countFetches_append, countFetches_append, countFetches_one,
          countFetches_pushes]
        have harith : (N - o - 1) / K = (N - (o + K) - 1) / K + 1 := by
          rw [show N - o - 1 = (N - (o + K) - 1) + K from by omega,
            Nat.add_div_right _ (by omega : 0 < K)]
        omega
    · have hL : min K (N - o) = N - o := by omega
      have hmoreb : (⟨List.range' o (min K (N - o)), (N : Int), (o : Int),
          defaultPageSize⟩ : IncidentPage Nat).HasMore = false := by
        simp only [IncidentPage.HasMore, hlen]
        rw [decide_eq_false_iff_not]
        push_cast
        omega
      simp only [hmoreb, Bool.not_true, Bool.not_false, Bool.false_eq_true,
        if_false, if_true]
      refine ⟨by rw [hL], ?_⟩
      rw [countFetches_append, countFetches_append, countFetches_one,
        countFetches_pushes]
      have hz : (N - o - 1) / K = 0 := Nat.div_eq_of_lt (by omega)
      omega

/-- C1: for the fetch primitive serving `N` items in pages of size `K`,
`Collect` applied to the sequence produced by `Search` returns exactly the
`N` items in their original order with no error, and the run invokes the
page-fetch primitive exactly `ceil(N/K)` times — one call when `N = 0`. -/
theorem search_collect_pagination (N K fuel : Nat) (hK : 1 ≤ K)
    (hfuel : N < fuel) :
    Collect (searchSeq (fetchNK N K) fuel) = ((List.range N).map some, none)
    ∧ (N = 0 → countFetches (Search (fetchNK N K) (fun _ => none) collectStep
        fuel ([], none)).2 = 1)
    ∧ (1 ≤ N → countFetches (Search (fetchNK N K) (fun _ => none) collectStep
        fuel ([], none)).2 = (N + K - 1) / K) := by
  have hmain := searchNK_main N K hK fuel 0 (Or.inl rfl) (by omega) [] []
  have hrange : List.range N = List.range' 0 N := List.range_eq_range' N
  refine ⟨?_, ?_, ?_⟩
  · show ((Search (fetchNK N K) (fun _ => none) collectStep fuel
        ([], none)).1).getD ([], none) = ((List.range N).map some, none)
    rw [show (Search (fetchNK N K) (fun _ => none) collectStep fuel
        (([] : List (Option Nat)), (none : Option Unit))) =
      searchLoop (fetchNK N K) (fun _ => none) collectStep fuel ((0 : Nat) : Int)
        ([], none) [] from by norm_num [Search]]
    rw [hmain.1]
    simp [hrange]
  · intro hN
    rw [show (Search (fetchNK N K) (fun _ => none) collectStep fuel
        (([] : List (Option Nat)), (none : Option Unit))) =
      searchLoop (fetchNK N K) (fun _ => none) collectStep fuel ((0 : Nat) : Int)
        ([], none) [] from by norm_num [Search]]
    rw [hmain.2]
    subst hN
    simp [countFetches]
  · intro hN
    rw [show (Search (fetchNK N K) (fun _ => none) collectStep fuel
        (([] : List (Option Nat)), (none : Option Unit))) =
      searchLoop (fetchNK N K) (fun _ => none) collectStep fuel ((0 : Nat) : Int)
        ([], none) [] from by norm_num [Search]]
    rw [hmain.2]
    have : (N + K - 1) / K = (N - 1) / K + 1 := by
      rw [show N + K - 1 = (N - 1) + K from by omega,
        Nat.add_div_right _ (by omega : 0 < K)]
    simp [countFetches, this]

/-- Closed witness for the pagination claim: `N = 5` items served in pages of
`K = 2` yield the five items in order with exactly `ceil(5/2) = 3` fetches. -/
theorem search_collect_pagination_w :
    Collect (searchSeq (fetchNK 5 2) 6) =
      ([some 0, some 1, some 2, some 3, some 4], none)
    ∧ countFetches (Search (fetchNK 5 2) (fun _ => none) collectStep 6
        (([] : List (Option Nat)), (none : Option Unit))).2 = 3 := by
  have h := search_collect_pagination 5 2 6 (by decide) (by decide)
  exact ⟨by rw [h.1]; rfl, by rw [h.2.2 (by decide)]⟩

theorem collectN_run_bound {τ ε : Type} (n : Int) :
    ∀ (l : List (τ × Option ε)) (acc : List τ), (acc.length : Int) < n →
      (runPairs (collectNStep n) l (acc, none)).1.length ≤ n.toNat
      ∧ runPairsCount (collectNStep n) l (acc, none) ≤ n.toNat - acc.length := by
  intro l
  induction l with
  | nil =>
    intro acc h
    constructor
    · simp only [runPairs]
      omega
    · simp only [runPairsCount]
      omega
  | cons p rest ih =>
    rcases p with ⟨a, e⟩
    intro acc h
    cases e with
    | some e0 =>
      constructor
      · simp [runPairs, collectNStep]
        omega
      · simp [runPairsCount, collectNStep]
        omega
    | none =>
      by_cases hstop : n ≤ (acc.length : Int) + 1
      · constructor
        · simp [runPairs, collectNStep, hstop]
          omega
        · simp [runPairsCount, collectNStep, hstop]
          omega
      · have hlt : (((acc ++ [a]).length : Int)) < n := by
          simp
          omega
        have hrec := ih (acc ++ [a]) hlt
        constructor
        · simpa [runPairs, collectNStep, hstop] using hrec.1
        · have h2 := hrec.2
          simp [runPairsCount, collectNStep, hstop]
          simp at h2
          omega

theorem collectN_err_run {τ ε : Type} (n : Int) :
    ∀ (pre : List (τ × Option ε)) (x : τ) (e : ε) (post : List (τ × Option ε))
      (acc : List τ), (∀ p ∈ pre, p.2 = none) →
      ((acc.length : Int) + pre.length < n) →
      runPairs (collectNStep n) (pre ++ (x, some e) :: post) (acc, none) =
        (acc ++ pre.map Prod.fst, some e) := by
  intro pre
  induction pre with
  | nil =>
    intro x e post acc hall hlen
    simp [runPairs, collectNStep]
  | cons p pre1 ih =>
    rcases p with ⟨a, e1⟩
    intro x e post acc hall hlen
    have he1 : e1 = none := hall (a, e1) (List.mem_cons_self _ _)
    subst he1
    have hnostop : ¬ n ≤ (acc.length : Int) + 1 := by
      simp only [List.length_cons] at hlen
      push_cast at hlen ⊢
      omega
    simp only [List.cons_append]
    simp [runPairs, collectNStep, hnostop]
    rw [ih x e post (acc ++ [a])
      (fun q hq => hall q (List.mem_cons_of_mem _ hq))
      (by simp only [List.length_append, List.length_cons, List.length_nil]
          simp only [List.length_cons] at hlen
          push_cast at hlen ⊢
          omega)]
    simp

/-- C8 (amended with `1 ≤ n`, forced by the counterexample at `n = 0`): for
every list-backed sequence and every `n ≥ 1`, `CollectN` returns at most `n`
items and pulls at most `n` pairs from the source, and when an error pair is
pulled before `n` items have been collected it stops early with the items
collected so far plus that error. -/
theorem collectN_drains_bounded {τ ε : Type} (l : List (τ × Option ε))
    (n : Int) (hn : 1 ≤ n) :
    (CollectN (ofPairs l) n).1.length ≤ n.toNat
    ∧ runPairsCount (collectNStep n) l (([] : List τ), (none : Option ε)) ≤ n.toNat
    ∧ ∀ (pre : List (τ × Option ε)) (x : τ) (e : ε) (post : List (τ × Option ε)),
        (∀ p ∈ pre, p.2 = none) → ((pre.length : Int) < n) →
        CollectN (ofPairs (pre ++ (x, some e) :: post)) n =
          (pre.map Prod.fst, some e) := by
  have h0 : ((([] : List τ)).length : Int) < n := by
    simp only [List.length_nil, Int.natCast_zero]
    omega
  refine ⟨(collectN_run_bound n l [] h0).1,
    by simpa using (collectN_run_bound n l [] h0).2, ?_⟩
  intro pre x e post hall hlen
  exact collectN_err_run n pre x e post [] hall (by simpa using hlen)

/-- C8 counterexample: at `n = 0` the Go code still pulls the first pair and
returns it — `CollectN` over a 1-item source returns 1 item (not at most 0)
and pulls 1 pair (not at most 0), refuting the claim for every `n`. -/
theorem collectN_zero_cex :
    CollectN (ofPairs [((7 : Nat), (none : Option Unit))]) 0 = ([7], none)
    ∧ ¬ ((CollectN (ofPairs [((7 : Nat), (none : Option Unit))]) 0).1.length ≤ 0)
    ∧ runPairsCount (collectNStep (0 : Int))
        [((7 : Nat), (none : Option Unit))] ([], none) = 1 := by
  exact ⟨rfl, by decide, rfl⟩

/-- Closed witness for the `CollectN` bound: over the 5-item error-free
source with `n = 3` it returns exactly the first 3 items and pulls exactly 3
pairs (never a 4th). -/
theorem collectN_drains_bounded_w :
    (1 : Int) ≤ 3
    ∧ (CollectN (ofPairs fiveItems) 3).1.length ≤ (3 : Int).toNat
    ∧ CollectN (ofPairs fiveItems) 3 = ([1, 2, 3], none)
    ∧ runPairsCount (collectNStep (3 : Int)) fiveItems ([], none) = 3 := by
  refine ⟨by decide, (collectN_drains_bounded fiveItems 3 (by decide)).1,
    by rfl, by rfl⟩

theorem take_char {τ ε σ : Type} (n : Int) (yield : σ → τ → Option ε → σ × Bool) :
    ∀ (l : List (τ × Option ε)) (c : Int) (s : σ),
      (runPairs (takeStep yield n) l (s, c)).1 =
        runPairs yield (takeCut n c l) s := by
  intro l
  induction l with
  | nil => intro c s; rfl
  | cons p rest ih =>
    rcases p with ⟨a, e⟩
    intro c s
    cases e with
    | some e0 =>
      cases hq : (yield s a (some e0)).2 with
      | false => simp [runPairs, takeStep, takeCut, hq]
      | true => simp [runPairs, takeStep, takeCut, hq]
    | none =>
      cases hq : (yield s a none).2 with
      | false => simp [runPairs, takeStep, takeCut, hq]
      | true =>
        by_cases hc : c + 1 < n
        · simp [runPairs, takeStep, takeCut, hq, hc, ih]
        · simp [runPairs, takeStep, takeCut, hq, hc]

theorem takeCut_len {τ ε : Type} (n : Int) :
    ∀ (l : List (τ × Option ε)) (c : Int), c < n →
      (takeCut n c l).length ≤ (n - c).toNat := by
  intro l
  induction l with
  | nil =>
    intro c hc
    simp [takeCut]
  | cons p rest ih =>
    rcases p with ⟨a, e⟩
    intro c hc
    cases e with
    | some e0 =>
      simp [takeCut]
      omega
    | none =>
      by_cases hcn : c + 1 < n
      · have := ih (c + 1) hcn
        simp [takeCut, hcn]
        omega
      · simp [takeCut, hcn]
        omega

theorem takeCut_take {τ ε : Type} (n : Int) :
    ∀ (l : List (τ × Option ε)) (c : Int),
      takeCut n c l = l.take (takeCut n c l).length := by
  intro l
  induction l with
  | nil => intro c; rfl
  | cons p rest ih =>
    rcases p with ⟨a, e⟩
    intro c
    cases e with
    | some e0 => simp [takeCut]
    | none =>
      by_cases hcn : c + 1 < n
      · simp only [takeCut, Option.isSome_none, Bool.false_eq_true, if_false,
          hcn, if_true, List.length_cons, List.take_succ_cons]
        exact congrArg _ (ih (c + 1))
      · simp [takeCut, hcn]

theorem takeCut_errLast {τ ε : Type} (n : Int) :
    ∀ (l : List (τ × Option ε)) (c : Int),
      errOnlyLast (takeCut n c l) = true := by
  intro l
  induction l with
  | nil => intro c; rfl
  | cons p rest ih =>
    rcases p with ⟨a, e⟩
    intro c
    cases e with
    | some e0 => simp [takeCut, errOnlyLast]
    | none =>
      by_cases hcn : c + 1 < n
      · simp only [takeCut, Option.isSome_none, Bool.false_eq_true, if_false,
          hcn, if_true]
        cases ht : takeCut n (c + 1) rest with
        | nil => rfl
        | cons y ys =>
          have := ih (c + 1)
          rw [ht] at this
          simp [errOnlyLast, this]
      · simp [takeCut, hcn, errOnlyLast]

theorem take_pulls {τ ε σ : Type} (n : Int)
    (yield : σ → τ → Option ε → σ × Bool) :
    ∀ (l : List (τ × Option ε)) (c : Int) (s : σ), c < n →
      runPairsCount (takeStep yield n) l (s, c) ≤ (n - c).toNat := by
  intro l
  induction l with
  | nil =>
    intro c s hc
    simp [runPairsCount]
  | cons p rest ih =>
    rcases p with ⟨a, e⟩
    intro c s hc
    cases e with
    | some e0 =>
      cases hq : (yield s a (some e0)).2 with
      | false =>
        simp [runPairsCount, takeStep, hq]
        omega
      | true =>
        simp [runPairsCount, takeStep, hq]
        omega
    | none =>
      cases hq : (yield s a none).2 with
      | false =>
        simp [runPairsCount, takeStep, hq]
        omega
      | true =>
        by_cases hcn : c + 1 < n
        · have := ih (c + 1) (yield s a none).1 hcn
          simp [runPairsCount, takeStep, hq, hcn]
          omega
        · simp [runPairsCount, takeStep, hq, hcn]
          omega

/-- C9 (amended with `1 ≤ n`, forced by the counterexample at `n = 0`): for
every list-backed source and every `n ≥ 1`, `Take` behaves — for every
downstream consumer — exactly like the list-backed sequence over the cut
prefix `takeCut n 0 l`, a true prefix of the source of length at most `n`
whose only error pair (if any) is its last element: it yields at most `n`
items, forwards an upstream error pair verbatim and stops right after it
regardless of the acceptor's answer, and pulls at most `n` pairs from the
source. -/
theorem take_bounded_stops {τ ε : Type} (l : List (τ × Option ε)) (n : Int)
    (hn : 1 ≤ n) :
    (∀ (σ : Type) (yield : σ → τ → Option ε → σ × Bool) (s : σ),
        Take (ofPairs l) n σ yield s = ofPairs (takeCut n 0 l) σ yield s)
    ∧ (takeCut n 0 l).length ≤ n.toNat
    ∧ takeCut n 0 l = l.take (takeCut n 0 l).length
    ∧ errOnlyLast (takeCut n 0 l) = true
    ∧ ∀ (σ : Type) (yield : σ → τ → Option ε → σ × Bool) (s : σ),
        runPairsCount (takeStep yield n) l (s, 0) ≤ n.toNat := by
  refine ⟨fun σ yield s => take_char n yield l 0 s, ?_,
    takeCut_take n l 0, takeCut_errLast n l 0, fun σ yield s => ?_⟩
  · have := takeCut_len n l 0 (by omega)
    simpa using this
  · have := take_pulls n yield l 0 s (by omega)
    simpa using this

/-- C9 counterexample: at `n = 0` the Go code still forwards the first item
before checking the counter — `Take (seq, 0)` over a 1-item source yields 1
item (not at most 0), refuting the claim for every `n`. -/
theorem take_zero_cex :
    Collect (Take (ofPairs [((7 : Nat), (none : Option Unit)), (8, none)]) 0) =
      ([7], none)
    ∧ ¬ ((Collect (Take (ofPairs [((7 : Nat), (none : Option Unit)),
        (8, none)]) 0)).1.length ≤ 0) := by
  exact ⟨rfl, by decide⟩

/-- Closed witness for the `Take` bound: over the 3-item error-free source
with `n = 2`, the wrapper equals the cut-prefix sequence, yields `[7, 8]`,
and pulls at most 2 pairs. -/
theorem take_bounded_stops_w :
    (1 : Int) ≤ 2
    ∧ Take (ofPairs threeItems) 2 (List Nat × Option Unit) collectStep
        ([], none) =
      ofPairs (takeCut 2 0 threeItems) (List Nat × Option Unit) collectStep
        ([], none)
    ∧ (takeCut 2 0 threeItems).length ≤ (2 : Int).toNat
    ∧ errOnlyLast (takeCut 2 0 threeItems) = true
    ∧ runPairsCount (takeStep (collectStep (τ := Nat) (ε := Unit)) 2)
        threeItems (([], none), 0) ≤ (2 : Int).toNat
    ∧ Collect (Take (ofPairs threeItems) 2) = ([7, 8], none) := by
  have h := take_bounded_stops threeItems 2 (by decide)
  exact ⟨by decide, h.1 _ collectStep ([], none), h.2.1, h.2.2.2.1,
    h.2.2.2.2 _ collectStep ([], none), by rfl⟩

end GoXsoar
